import Mathlib

/-!
Shallow embedding of the image-variant Lambda handler in
`separate-storage/index.js`.

JavaScript strings are modelled as `List Char` (`Str`).  The S3 client is
modelled as an environment `Env` supplying the outcome of `getObject` and
`putObject` calls together with black-box codec facts (encoded byte length,
the `toFixed(2)` compression-ratio string, and the current timestamp) that
the handler only threads into object metadata.  Every S3 call the handler
issues is recorded, in program order, in a trace of `Op` values; `Promise.all`
groups are recorded in the order of the array they are mapped from, stopping
at the first rejection.  The sharp pipeline built for each variant is
recorded symbolically as a `List Step`; encoder options that no observable
behaviour depends on (progressive/mozjpeg flags, PNG compression level,
webp effort) are not part of the step, only target format and quality.
-/

/-- A JavaScript string, modelled as its list of code points. -/
abbrev Str := List Char

/-- Coerce a Lean string literal to the `Str` model. -/
def str (s : String) : Str := s.data

/-- Boolean prefix test, mirroring `String.prototype.startsWith`. -/
def isPre : Str → Str → Bool
  | [], _ => true
  | _ :: _, [] => false
  | a :: as, b :: bs => a == b && isPre as bs

/-- JavaScript `s.replace(pat, rep)` with a string pattern: replace the first
occurrence of `pat` only. -/
def replaceFirst (pat rep : Str) : Str → Str
  | [] => if pat = [] then rep else []
  | c :: cs =>
    if isPre pat (c :: cs) then rep ++ (c :: cs).drop pat.length
    else c :: replaceFirst pat rep cs

/-- JavaScript `s.split(".")`, mirroring its exact semantics
(`"a..b" ↦ ["a","","b"]`, `"" ↦ [""]`). -/
def splitDot : Str → List Str
  | [] => [[]]
  | c :: cs =>
    if c = '.' then [] :: splitDot cs
    else
      match splitDot cs with
      | [] => [[c]]
      | p :: ps => (c :: p) :: ps

/-- JavaScript `s.toLowerCase()` (the handler only compares the result against ASCII
extension names, for which `Char.toLower` agrees with JavaScript). -/
def toLowerStr (s : Str) : Str := s.map Char.toLower

/-- Decimal rendering of a byte count (`Number.prototype.toString` on a
non-negative integer). -/
def natStr (n : Nat) : Str := (Nat.repr n).data

/-- The replacement `key.replace(/\+/g, " ")`. -/
def plusToSpace (s : Str) : Str := s.map (fun c => if c = '+' then ' ' else c)

/-- Value of one hexadecimal digit. -/
def hexVal (c : Char) : Option Nat :=
  if '0' ≤ c ∧ c ≤ '9' then some (c.toNat - '0'.toNat)
  else if 'a' ≤ c ∧ c ≤ 'f' then some (c.toNat - 'a'.toNat + 10)
  else if 'A' ≤ c ∧ c ≤ 'F' then some (c.toNat - 'A'.toNat + 10)
  else none

/-- Consume one `%XX` escape, returning the byte and the rest of the
input. -/
def pctByte : Str → Option (Nat × Str)
  | '%' :: h1 :: h2 :: rest =>
    match hexVal h1, hexVal h2 with
    | some a, some b => some (16 * a + b, rest)
    | _, _ => none
  | _ => none

/-- Consume `n` UTF-8 continuation bytes, each written as its own `%XX`
escape. -/
def contBytes : Nat → Str → Option (List Nat × Str)
  | 0, s => some ([], s)
  | n + 1, s =>
    match pctByte s with
    | some (b, s1) =>
      if 128 ≤ b ∧ b < 192 then
        match contBytes n s1 with
        | some (bs, s2) => some (b :: bs, s2)
        | none => none
      else none
    | none => none

/-- Number of continuation bytes demanded by a UTF-8 lead byte. -/
def utf8Need (b : Nat) : Option Nat :=
  if b < 128 then some 0
  else if b < 192 then none
  else if b < 224 then some 1
  else if b < 240 then some 2
  else if b < 248 then some 3
  else none

/-- Code point assembled from a lead byte and its continuation bytes. -/
def utf8Val (b0 : Nat) (bs : List Nat) : Nat :=
  match bs with
  | [] => b0
  | [b1] => (b0 - 192) * 64 + (b1 - 128)
  | [b1, b2] => (b0 - 224) * 4096 + (b1 - 128) * 64 + (b2 - 128)
  | [b1, b2, b3] =>
    (b0 - 240) * 262144 + (b1 - 128) * 4096 + (b2 - 128) * 64 + (b3 - 128)
  | _ => 0

/-- Strictness checks of the ECMAScript UTF-8 decoder: no overlong forms,
no surrogates, nothing above U+10FFFF. -/
def utf8Ok (b0 : Nat) (bs : List Nat) (v : Nat) : Bool :=
  match bs with
  | [] => decide (b0 < 128)
  | [_] => decide (194 ≤ b0)
  | [_, _] => decide (2048 ≤ v ∧ (v < 55296 ∨ 57343 < v))
  | [_, _, _] => decide (65536 ≤ v ∧ v ≤ 1114111)
  | _ => false

/-- Fuel-indexed main loop of `decodeURIComponent`; the fuel is the input
length, which one unit of progress per decoded character never exhausts. -/
def decodeLoop : Nat → Str → Option Str
  | _, [] => some []
  | 0, _ :: _ => none
  | fuel + 1, c :: rest =>
    if c = '%' then
      match pctByte (c :: rest) with
      | none => none
      | some (b0, s1) =>
        match utf8Need b0 with
        | none => none
        | some n =>
          match contBytes n s1 with
          | none => none
          | some (bs, s2) =>
            let v := utf8Val b0 bs
            if utf8Ok b0 bs v then
              match decodeLoop fuel s2 with
              | some tail => some (Char.ofNat v :: tail)
              | none => none
            else none
    else
      match decodeLoop fuel rest with
      | some tail => some (c :: tail)
      | none => none

/-- JavaScript `decodeURIComponent`; `none` models a thrown `URIError`. -/
def decodeURIComponentStr (s : Str) : Option Str := decodeLoop s.length s

/-- Line 65 of the handler:
`decodeURIComponent(record.s3.object.key.replace(/\+/g, " "))`. -/
def decodeKey (k : Str) : Option Str := decodeURIComponentStr (plusToSpace k)

/-- One step of a sharp pipeline. -/
inductive Step where
  /-- The call `.rotate()`: apply the EXIF orientation. -/
  | rotate : Step
  /-- A call `.resize(w, h, opts)` with fit and enlargement options; `none` models `null`. -/
  | resize (w h : Option Nat) (fitInside withoutEnlargement : Bool) : Step
  /-- Final encode to a target format at a quality setting. -/
  | encode (fmt : Str) (quality : Nat) : Step
deriving DecidableEq, Repr

/-- What the handler can observe of a fetched source object: the declared
content type (`[]` models an absent `ContentType`, matching
`originalImage.ContentType || ""`), the dimensions sharp reports, the byte
length of the body, and whether sharp can decode it at all. -/
structure S3Obj where
  contentType : Str
  width : Nat
  height : Nat
  size : Nat
  decodable : Bool
deriving DecidableEq, Repr

/-- One S3 call issued by the handler.  The source code contains no
`deleteObject` (or any other mutating S3 call besides `putObject`), so the
trace vocabulary has exactly these two constructors. -/
inductive Op where
  | getObject (bucket key : Str) : Op
  | putObject (bucket key : Str) (body : List Step) (contentType : Str)
      (cacheControl : Str) (metadata : List (Str × Str)) : Op
deriving DecidableEq, Repr

/-- The storage/codec environment: outcome of `getObject` per (bucket, key),
outcome of `putObject` per (bucket, key) (`some e` models a rejected
promise), and the codec/clock black boxes the handler only copies into
metadata: encoded byte length, the `toFixed(2)` compression-ratio string
(floating-point formatting, outside the embedding), and
`new Date().toISOString()`. -/
structure Env where
  get : Str → Str → Except Str S3Obj
  putErr : Str → Str → Option Str
  encSize : S3Obj → List Step → Nat
  ratioStr : Nat → Nat → Str
  now : Str

/-- One record of the normalized work list: `record.s3.bucket.name` and the
raw (still URL-encoded) `record.s3.object.key`. -/
structure S3Record where
  bucket : Str
  key : Str
deriving DecidableEq, Repr

/-- The `detail` field of an EventBridge-shaped event; `bucket`/`object`
carry `detail.bucket.name` / `detail.object.key` when the corresponding
sub-object is present. -/
structure Detail where
  bucket : Option Str
  object : Option Str
deriving DecidableEq, Repr

/-- An inbound event.  `detail`, `records` and `test` model the three
fields the handler inspects (`records = some l` means `Records` is present
and is an array `l`); `extraKeys` lists any other top-level keys, so that
`Object.keys(event)` can be reproduced for the 400 response. -/
structure Event where
  detail : Option Detail
  records : Option (List S3Record)
  test : Option Bool
  extraKeys : List Str
deriving DecidableEq, Repr

/-- JavaScript `Object.keys(event)`. -/
def Event.keys (e : Event) : List Str :=
  (match e.detail with | some _ => [str "detail"] | none => []) ++
  (match e.records with | some _ => [str "Records"] | none => []) ++
  (match e.test with | some _ => [str "test"] | none => []) ++
  e.extraKeys

/-- The handler's HTTP-style response body (the JSON object passed to
`JSON.stringify`). -/
inductive RespBody where
  | msg (message : Str) : RespBody
  | msgNote (message note : Str) : RespBody
  | errReceived (error : Str) (received : List Str) : RespBody
deriving DecidableEq, Repr

/-- The handler's HTTP-style response. -/
structure Response where
  statusCode : Nat
  body : RespBody
deriving DecidableEq, Repr

/-- Lines 12-22: the test
`event.detail && event.detail.bucket && event.detail.object`, and the
single synthetic record built from it. -/
def detailRecord (e : Event) : Option S3Record :=
  match e.detail with
  | some d =>
    match d.bucket, d.object with
    | some b, some k => some ⟨b, k⟩
    | _, _ => none
  | none => none

/-- Lines 12-31: the normalized record list, or `none` when the event is
neither shape (the EventBridge shape takes priority; the `Records` shape
additionally requires a non-empty array). -/
def eventRecords (e : Event) : Option (List S3Record) :=
  match detailRecord e with
  | some r => some [r]
  | none =>
    match e.records with
    | some rs => if rs = [] then none else some rs
    | none => none

/-- Line 88: the supported extension list. -/
def supportedImageFormats : List Str :=
  [str "jpg", str "jpeg", str "png", str "webp", str "gif", str "bmp",
   str "tiff"]

/-- Line 84: `key.replace("original/", "")`. -/
def filenameOf (key : Str) : Str := replaceFirst (str "original/") [] key

/-- Line 85: `filename.split(".").pop().toLowerCase()`. -/
def extensionOf (filename : Str) : Str :=
  toLowerStr ((splitDot filename).getLastD [])

/-- The ternary `extension === "jpg" ? "jpeg" : extension` (lines 159, 177,
196, 299, 312). -/
def sharpFormat (extension : Str) : Str :=
  if extension = str "jpg" then str "jpeg" else extension

/-- The regex replace `filename.replace(/\.([^.]+)$/, "-NAME.$1")` and
`filename.replace(/\.[^.]+$/, ".webp")` both split off a final extension:
a trailing run of one or more non-dot characters preceded by a dot. -/
def lastExtSplit (s : Str) : Option (Str × Str) :=
  match s.reverse.dropWhile (fun c => c ≠ '.') with
  | [] => none
  | _ :: baseRev =>
    let extRev := s.reverse.takeWhile (fun c => c ≠ '.')
    if extRev = [] then none else some (baseRev.reverse, extRev.reverse)

/-- Lines 186-189: insert `-small` / `-medium` / `-large` before the final
extension; a filename the regex does not match is left unchanged. -/
def sizeFilename (filename tag : Str) : Str :=
  match lastExtSplit filename with
  | some (base, ext) => base ++ tag ++ '.' :: ext
  | none => filename

/-- Line 206: replace the final extension with `.webp`; no match leaves the
filename unchanged. -/
def webpFilename (filename : Str) : Str :=
  match lastExtSplit filename with
  | some (base, _) => base ++ str ".webp"
  | none => filename

/-- The sharp error raised when a buffer cannot be decoded. -/
def decodeErr : Str := str "Input buffer contains unsupported image format"

/-- Lines 242-296: `optimizeImage`.  Rotation first, a conditional
fit-inside resize to 1200 when either reported dimension exceeds 1200, and
an encode switched on the extension; extensions outside jpg/jpeg/png/webp
throw `Unsupported image format: <extension>`. -/
def optimizeImage (obj : S3Obj) (extension : Str) :
    Except Str (List Step) :=
  if obj.decodable = false then Except.error decodeErr
  else
    let base := [Step.rotate]
    let resized :=
      if 1200 < obj.width ∨ 1200 < obj.height then
        base ++ [Step.resize (some 1200) (some 1200) true true]
      else base
    if extension = str "jpg" ∨ extension = str "jpeg" then
      Except.ok (resized ++ [Step.encode (str "jpeg") 85])
    else if extension = str "png" then
      Except.ok (resized ++ [Step.encode (str "png") 85])
    else if extension = str "webp" then
      Except.ok (resized ++ [Step.encode (str "webp") 85])
    else Except.error (str "Unsupported image format: " ++ extension)

/-- Lines 298-309: `createThumbnail` — fit-inside 300×300 without
enlargement, then `toFormat(format, {quality: 80})`; no rotation step. -/
def createThumbnail (obj : S3Obj) (extension : Str) :
    Except Str (List Step) :=
  if obj.decodable = false then Except.error decodeErr
  else
    Except.ok [Step.resize (some 300) (some 300) true true,
               Step.encode (sharpFormat extension) 80]

/-- Lines 311-321: `createResizedImage` — fit-inside to a width with `null`
height, then `toFormat(format, {quality: 85})`; no rotation step. -/
def createResizedImage (obj : S3Obj) (extension : Str) (width : Nat) :
    Except Str (List Step) :=
  if obj.decodable = false then Except.error decodeErr
  else
    Except.ok [Step.resize (some width) none true true,
               Step.encode (sharpFormat extension) 85]

/-- Lines 323-330: `convertToWebP` — a single full-size webp encode; no
rotation step, no resize. -/
def convertToWebP (obj : S3Obj) : Except Str (List Step) :=
  if obj.decodable = false then Except.error decodeErr
  else Except.ok [Step.encode (str "webp") 85]

/-- One pending `putObject` call: destination key, body pipeline, content
type and metadata (the bucket and the constant `CacheControl` are added
when the call is issued). -/
structure PutReq where
  key : Str
  body : List Step
  contentType : Str
  metadata : List (Str × Str)
deriving DecidableEq, Repr

/-- The `putObject` parameter record for one request; every put site in the
handler passes `CacheControl: "max-age=31536000"`. -/
def reqOp (bucket : Str) (p : PutReq) : Op :=
  Op.putObject bucket p.key p.body p.contentType (str "max-age=31536000")
    p.metadata

/-- Issue a list of `putObject` calls in the order of the array they are
mapped from, stopping at the first rejection (whose call was still
issued). -/
def putSeq (env : Env) (bucket : Str) : List PutReq → List Op × Option Str
  | [] => ([], none)
  | p :: ps =>
    match env.putErr bucket p.key with
    | some e => ([reqOp bucket p], some e)
    | none =>
      match putSeq env bucket ps with
      | (ops, err) => (reqOp bucket p :: ops, err)

/-- Lines 161-166: the metadata attached to the optimized object only. -/
def optimizedMeta (env : Env) (obj : S3Obj) (optPipe : List Step) :
    List (Str × Str) :=
  [(str "originalSize", natStr obj.size),
   (str "optimizedSize", natStr (env.encSize obj optPipe)),
   (str "compressionRatio", env.ratioStr obj.size (env.encSize obj optPipe)),
   (str "optimizedAt", env.now)]

/-- Lines 152-202: the five puts issued before the webp conversion, in
program order — optimized (with the `ContentType ||` fallback and the
metadata block), thumbnail, and the three sized variants. -/
def mainReqs (env : Env) (obj : S3Obj) (filename fileExtension : Str)
    (optPipe thumbPipe smallPipe mediumPipe largePipe : List Step) :
    List PutReq :=
  [⟨str "optimized/" ++ filename, optPipe,
    (if obj.contentType = [] then str "image/" ++ sharpFormat fileExtension
     else obj.contentType),
    optimizedMeta env obj optPipe⟩,
   ⟨str "thumbnails/" ++ filename, thumbPipe,
    str "image/" ++ sharpFormat fileExtension, []⟩,
   ⟨str "sizes/" ++ sizeFilename filename (str "-small"), smallPipe,
    str "image/" ++ sharpFormat fileExtension, []⟩,
   ⟨str "sizes/" ++ sizeFilename filename (str "-medium"), mediumPipe,
    str "image/" ++ sharpFormat fileExtension, []⟩,
   ⟨str "sizes/" ++ sizeFilename filename (str "-large"), largePipe,
    str "image/" ++ sharpFormat fileExtension, []⟩]

/-- Lines 63-234: the body of the per-record loop.  Returns the S3 calls
issued for this record and `some e` when an error is thrown out of the
iteration (the `catch` block rethrows, and the `decodeURIComponent` call
sits before the `try`, so every error propagates). -/
def processRecord (env : Env) (r : S3Record) : List Op × Option Str :=
  match decodeKey r.key with
  | none => ([], some (str "URIError: URI malformed"))
  | some key =>
    if isPre (str "original/") key then
      match env.get r.bucket key with
      | Except.error e => ([Op.getObject r.bucket key], some e)
      | Except.ok obj =>
        let filename := filenameOf key
        let fileExtension := extensionOf filename
        if supportedImageFormats.contains fileExtension then
          if isPre (str "image/") obj.contentType then
            match optimizeImage obj fileExtension with
            | Except.error e => ([Op.getObject r.bucket key], some e)
            | Except.ok optPipe =>
              match createThumbnail obj fileExtension with
              | Except.error e => ([Op.getObject r.bucket key], some e)
              | Except.ok thumbPipe =>
                match createResizedImage obj fileExtension 320 with
                | Except.error e => ([Op.getObject r.bucket key], some e)
                | Except.ok smallPipe =>
                match createResizedImage obj fileExtension 640 with
                | Except.error e => ([Op.getObject r.bucket key], some e)
                | Except.ok mediumPipe =>
                match createResizedImage obj fileExtension 1024 with
                | Except.error e => ([Op.getObject r.bucket key], some e)
                | Except.ok largePipe =>
                  match putSeq env r.bucket
                      (mainReqs env obj filename fileExtension optPipe
                        thumbPipe smallPipe mediumPipe largePipe) with
                  | (ops1, some e) =>
                    (Op.getObject r.bucket key :: ops1, some e)
                  | (ops1, none) =>
                    match convertToWebP obj with
                    | Except.error e =>
                      (Op.getObject r.bucket key :: ops1, some e)
                    | Except.ok webpPipe =>
                      match putSeq env r.bucket
                          [⟨str "webp/" ++ webpFilename filename, webpPipe,
                            str "image/webp", []⟩] with
                      | (ops2, err2) =>
                        (Op.getObject r.bucket key :: (ops1 ++ ops2), err2)
          else ([Op.getObject r.bucket key], none)
        else ([Op.getObject r.bucket key], none)
    else ([], none)

/-- The per-record loop over the normalized record list: errors abort the
remainder of the batch, and falling off the end returns the success
response of lines 236-239. -/
def runItems (env : Env) : List S3Record → List Op × Except Str Response
  | [] =>
    ([], Except.ok ⟨200, RespBody.msg (str "Images processed successfully")⟩)
  | r :: rs =>
    match processRecord env r with
    | (ops, some e) => (ops, Except.error e)
    | (ops, none) =>
      match runItems env rs with
      | (ops2, res) => (ops ++ ops2, res)

/-- Lines 6-240: the Lambda entry point, returning the S3 calls issued and
either a response or the error thrown out of the invocation. -/
def handler (env : Env) (e : Event) : List Op × Except Str Response :=
  match eventRecords e with
  | some rs =>
    if rs = [] then
      ([], Except.ok ⟨200, RespBody.msg (str "No records to process")⟩)
    else runItems env rs
  | none =>
    if e.test = some true then
      ([], Except.ok ⟨200, RespBody.msgNote
        (str "Lambda function is working. Configure S3 trigger or EventBridge to process images.")
        (str "This function processes images when triggered by S3 events in the original/ folder.")⟩)
    else
      ([], Except.ok ⟨400, RespBody.errReceived
        (str "Invalid event format. Expected S3 event or EventBridge event.")
        (Event.keys e)⟩)

/-- The destination keys of the put calls in a trace, in order. -/
def putKeys : List Op → List Str
  | [] => []
  | Op.getObject _ _ :: ops => putKeys ops
  | Op.putObject _ k _ _ _ _ :: ops => k :: putKeys ops

/-- The content type of the first put call at a given key, if any. -/
def putCT (ops : List Op) (key : Str) : Option Str :=
  match ops with
  | [] => none
  | Op.getObject _ _ :: rest => putCT rest key
  | Op.putObject _ k _ ct _ _ :: rest =>
    if k = key then some ct else putCT rest key

/-- The body pipeline of the first put call at a given key, if any. -/
def putBody (ops : List Op) (key : Str) : Option (List Step) :=
  match ops with
  | [] => none
  | Op.getObject _ _ :: rest => putBody rest key
  | Op.putObject _ k body _ _ _ :: rest =>
    if k = key then some body else putBody rest key

/-- Whether a pipeline step is the EXIF rotation. -/
def isRotate : Step → Bool
  | Step.rotate => true
  | _ => false

/-- Whether a pipeline step is a resize. -/
def isResize : Step → Bool
  | Step.resize _ _ _ _ => true
  | _ => false

/-- The property claimed of every variant pipeline: exactly one EXIF
rotation, placed before any resize. -/
def rotateOnceBeforeResize (steps : List Step) : Bool :=
  steps.countP (fun s => isRotate s) = 1 &&
    (steps.takeWhile (fun s => !(isRotate s))).all (fun s => !(isResize s))

/-- The pipeline `optimizeImage` builds on a decodable source with a
re-encodable extension. -/
def optPipe (obj : S3Obj) (extL : Str) : List Step :=
  (if 1200 < obj.width ∨ 1200 < obj.height then
    [Step.rotate, Step.resize (some 1200) (some 1200) true true]
  else [Step.rotate]) ++ [Step.encode (sharpFormat extL) 85]

def successTrace (env : Env) (bucket key : Str) (obj : S3Obj) : List Op :=
  Op.getObject bucket key ::
    ((mainReqs env obj (filenameOf key) (extensionOf (filenameOf key))
        (optPipe obj (extensionOf (filenameOf key)))
        [Step.resize (some 300) (some 300) true true,
         Step.encode (sharpFormat (extensionOf (filenameOf key))) 80]
        [Step.resize (some 320) none true true,
         Step.encode (sharpFormat (extensionOf (filenameOf key))) 85]
        [Step.resize (some 640) none true true,
         Step.encode (sharpFormat (extensionOf (filenameOf key))) 85]
        [Step.resize (some 1024) none true true,
         Step.encode (sharpFormat (extensionOf (filenameOf key))) 85]).map
        (reqOp bucket) ++
      [reqOp bucket ⟨str "webp/" ++ webpFilename (filenameOf key),
        [Step.encode (str "webp") 85], str "image/webp", []⟩])

/-- The disjunction every trace operation satisfies: it is a fetch, or a
put whose key does not carry the source prefix. -/
def opOk (op : Op) : Prop :=
  (∃ b k, op = Op.getObject b k) ∨
  (∃ b k body ct cc md, op = Op.putObject b k body ct cc md ∧
    isPre (str "original/") k = false)

/-- A 2000x1500 decodable JPEG source declared `image/jpeg`. -/
def objJpg : S3Obj := ⟨str "image/jpeg", 2000, 1500, 500000, true⟩

/-- A decodable PNG source whose uploader declared `image/jpeg`. -/
def objPng : S3Obj := ⟨str "image/jpeg", 800, 600, 100000, true⟩

/-- A decodable GIF source declared `image/gif`. -/
def objGif : S3Obj := ⟨str "image/gif", 400, 300, 50000, true⟩

/-- A PDF stored under a `.pdf` key. -/
def objPdf : S3Obj := ⟨str "application/pdf", 0, 0, 1000, false⟩

/-- A text file stored under a `.jpg` key. -/
def objFake : S3Obj := ⟨str "text/plain", 0, 0, 1000, false⟩

/-- A concrete environment: a bucket `bkt` holding the test objects, with
no write failures. -/
def envStd : Env :=
  { get := fun b k =>
      if b = str "bkt" ∧ k = str "original/photo.jpg" then Except.ok objJpg
      else if b = str "bkt" ∧ k = str "original/pic.png" then Except.ok objPng
      else if b = str "bkt" ∧ k = str "original/anim.gif" then Except.ok objGif
      else if b = str "bkt" ∧ k = str "original/doc.pdf" then Except.ok objPdf
      else if b = str "bkt" ∧ k = str "original/fake.jpg" then Except.ok objFake
      else Except.error (str "NoSuchKey")
    putErr := fun _ _ => none
    encSize := fun _ _ => 111111
    ratioStr := fun _ _ => str "77.78"
    now := str "2026-02-03T04:05:06.000Z" }

/-- A direct (EventBridge-shaped) notification event. -/
def evDirect (b k : Str) : Event := ⟨some ⟨some b, some k⟩, none, none, []⟩

/-- A `Records`-shaped notification event. -/
def evRecords (rs : List S3Record) : Event := ⟨none, some rs, none, []⟩

/-- The probe event `{test: true}`. -/
def evTest : Event := ⟨none, none, some true, []⟩

/-- The malformed event `{foo: 1}`. -/
def evFoo : Event := ⟨none, none, none, [str "foo"]⟩

theorem isPre_append (p t : Str) : isPre p (p ++ t) = true := by
  induction p with
  | nil => rfl
  | cons a as ih => simp [isPre, ih]

theorem replaceFirst_of_isPre (pat rep s : Str) (h : isPre pat s = true) :
    replaceFirst pat rep s = rep ++ s.drop pat.length := by
  cases s with
  | nil =>
    cases pat with
    | nil => simp [replaceFirst]
    | cons a as => simp [isPre] at h
  | cons c cs => simp [replaceFirst, h]

theorem filenameOf_append (f : Str) :
    filenameOf (str "original/" ++ f) = f := by
  rw [filenameOf, replaceFirst_of_isPre _ _ _ (isPre_append _ _)]
  simp [str]

theorem splitDot_ne_nil (s : Str) : splitDot s ≠ [] := by
  cases s with
  | nil => simp [splitDot]
  | cons c cs =>
    simp only [splitDot]
    split
    · simp
    · split <;> simp

theorem splitDot_no_dot (s : Str) (h : '.' ∉ s) : splitDot s = [s] := by
  induction s with
  | nil => rfl
  | cons c cs ih =>
    simp only [List.mem_cons, not_or] at h
    have hc : ¬ c = '.' := fun hc => h.1 hc.symm
    simp only [splitDot, if_neg hc, ih h.2]

theorem two_le_splitDot_length (s : Str) (h : '.' ∈ s) :
    2 ≤ (splitDot s).length := by
  induction s with
  | nil => simp at h
  | cons c cs ih =>
    by_cases hc : c = '.'
    · subst hc
      have := List.length_pos.mpr (splitDot_ne_nil cs)
      have hrw : splitDot ('.' :: cs) = [] :: splitDot cs := by
        simp [splitDot]
      rw [hrw, List.length_cons]
      omega
    · have hcs : '.' ∈ cs := by
        rcases List.mem_cons.mp h with h1 | h1
        · exact absurd h1.symm hc
        · exact h1
      simp only [splitDot, if_neg hc]
      cases hsp : splitDot cs with
      | nil => exact absurd hsp (splitDot_ne_nil cs)
      | cons p ps =>
        have := ih hcs
        rw [hsp] at this
        simpa using this

theorem getLastD_splitDot_append (xs ys : Str) :
    ((splitDot (xs ++ '.' :: ys)).getLastD []) =
      ((splitDot ys).getLastD []) := by
  induction xs with
  | nil =>
    simp only [List.nil_append, splitDot, if_pos rfl]
    cases h : splitDot ys with
    | nil => exact absurd h (splitDot_ne_nil ys)
    | cons p ps => simp [List.getLastD_cons]
  | cons c cs ih =>
    by_cases hc : c = '.'
    · subst hc
      simp only [List.cons_append, splitDot, if_pos rfl]
      rw [← ih]
      cases h : splitDot (cs ++ '.' :: ys) with
      | nil => exact absurd h (splitDot_ne_nil _)
      | cons p ps => simp [List.getLastD_cons]
    · simp only [List.cons_append, splitDot, if_neg hc]
      rw [← ih]
      cases h : splitDot (cs ++ '.' :: ys) with
      | nil => exact absurd h (splitDot_ne_nil _)
      | cons p ps =>
        cases ps with
        | nil =>
          exfalso
          have h2 : 2 ≤ (splitDot (cs ++ '.' :: ys)).length :=
            two_le_splitDot_length _ (by simp)
          rw [h] at h2
          simp at h2
        | cons q qs => simp [List.getLastD_cons]

theorem extensionOf_append (name ext : Str) (h : '.' ∉ ext) :
    extensionOf (name ++ '.' :: ext) = toLowerStr ext := by
  rw [extensionOf, getLastD_splitDot_append, splitDot_no_dot ext h]
  rfl

theorem takeWhile_append_all {p : Char → Bool} (l1 l2 : Str)
    (h : ∀ a ∈ l1, p a = true) :
    (l1 ++ l2).takeWhile p = l1 ++ l2.takeWhile p := by
  induction l1 with
  | nil => rfl
  | cons a as ih =>
    have ha := h a (List.mem_cons_self a as)
    have ih2 := ih (fun b hb => h b (List.mem_cons_of_mem a hb))
    simp [List.takeWhile_cons, ha, ih2]

theorem dropWhile_append_all {p : Char → Bool} (l1 l2 : Str)
    (h : ∀ a ∈ l1, p a = true) :
    (l1 ++ l2).dropWhile p = l2.dropWhile p := by
  induction l1 with
  | nil => rfl
  | cons a as ih =>
    have ha := h a (List.mem_cons_self a as)
    have ih2 := ih (fun b hb => h b (List.mem_cons_of_mem a hb))
    simp [List.dropWhile_cons, ha, ih2]

theorem lastExtSplit_append (base ext : Str) (hne : ext ≠ [])
    (hnd : '.' ∉ ext) :
    lastExtSplit (base ++ '.' :: ext) = some (base, ext) := by
  have hrev : (base ++ '.' :: ext).reverse = ext.reverse ++ '.' :: base.reverse := by
    simp
  have hall : ∀ a ∈ ext.reverse, (fun c => decide (c ≠ '.')) a = true := by
    intro a ha
    simp only [List.mem_reverse] at ha
    simp only [decide_eq_true_eq]
    exact fun hc => hnd (hc ▸ ha)
  rw [lastExtSplit, hrev]
  rw [dropWhile_append_all _ _ hall, takeWhile_append_all _ _ hall]
  have hdw : List.dropWhile (fun c => decide (c ≠ '.')) ('.' :: base.reverse) =
      '.' :: base.reverse := by
    simp [List.dropWhile_cons]
  have htw : List.takeWhile (fun c => decide (c ≠ '.')) ('.' :: base.reverse) =
      [] := by
    simp [List.takeWhile_cons]
  rw [hdw, htw, List.append_nil]
  have hrne : ext.reverse ≠ [] := by simpa using hne
  simp [hrne]

theorem sizeFilename_append (base ext tag : Str) (hne : ext ≠ [])
    (hnd : '.' ∉ ext) :
    sizeFilename (base ++ '.' :: ext) tag = base ++ tag ++ '.' :: ext := by
  rw [sizeFilename, lastExtSplit_append base ext hne hnd]

theorem webpFilename_append (base ext : Str) (hne : ext ≠ [])
    (hnd : '.' ∉ ext) :
    webpFilename (base ++ '.' :: ext) = base ++ str ".webp" := by
  rw [webpFilename, lastExtSplit_append base ext hne hnd]

theorem putSeq_ok (env : Env) (bucket : Str) (reqs : List PutReq)
    (h : ∀ p ∈ reqs, env.putErr bucket p.key = none) :
    putSeq env bucket reqs = (reqs.map (reqOp bucket), none) := by
  induction reqs with
  | nil => rfl
  | cons p ps ih =>
    simp only [putSeq, h p (List.mem_cons_self p ps),
      ih (fun q hq => h q (List.mem_cons_of_mem p hq)), List.map_cons]

theorem putSeq_mem (env : Env) (bucket : Str) (reqs : List PutReq)
    (op : Op) (h : op ∈ (putSeq env bucket reqs).1) :
    ∃ p ∈ reqs, op = reqOp bucket p := by
  induction reqs with
  | nil => simp [putSeq] at h
  | cons p ps ih =>
    simp only [putSeq] at h
    cases he : env.putErr bucket p.key with
    | some e =>
      rw [he] at h
      simp only [List.mem_singleton] at h
      exact ⟨p, List.mem_cons_self p ps, h⟩
    | none =>
      rw [he] at h
      rcases hps : putSeq env bucket ps with ⟨ops, err⟩
      rw [hps] at h
      rcases List.mem_cons.mp h with h1 | h1
      · exact ⟨p, List.mem_cons_self p ps, h1⟩
      · rcases ih (by rw [hps]; exact h1) with ⟨q, hq, hop⟩
        exact ⟨q, List.mem_cons_of_mem p hq, hop⟩

theorem optimizeImage_ok (obj : S3Obj) (extL : Str)
    (hd : obj.decodable = true)
    (hx : extL ∈ [str "jpg", str "jpeg", str "png", str "webp"]) :
    optimizeImage obj extL = Except.ok (optPipe obj extL) := by
  simp only [List.mem_cons, List.mem_singleton, List.not_mem_nil, or_false] at hx
  rcases hx with rfl | rfl | rfl | rfl <;>
    · simp only [optimizeImage, optPipe, sharpFormat, hd, Bool.true_eq_false,
        if_false]
      split <;> simp_all [str]

theorem processRecord_success (env : Env) (bucket rawk key : Str)
    (obj : S3Obj)
    (hdec : decodeKey rawk = some key)
    (hpre : isPre (str "original/") key = true)
    (hget : env.get bucket key = Except.ok obj)
    (hext : extensionOf (filenameOf key) ∈
      [str "jpg", str "jpeg", str "png", str "webp"])
    (hct : isPre (str "image/") obj.contentType = true)
    (hd : obj.decodable = true)
    (hput : ∀ b k, env.putErr b k = none) :
    processRecord env ⟨bucket, rawk⟩ = (successTrace env bucket key obj, none) := by
  have hsup : supportedImageFormats.contains (extensionOf (filenameOf key)) = true := by
    simp only [List.mem_cons, List.mem_singleton, List.not_mem_nil, or_false] at hext
    rcases hext with h | h | h | h <;> rw [h] <;> rfl
  have hopt := optimizeImage_ok obj (extensionOf (filenameOf key)) hd hext
  have hput1 : putSeq env bucket
      (mainReqs env obj (filenameOf key) (extensionOf (filenameOf key))
        (optPipe obj (extensionOf (filenameOf key)))
        [Step.resize (some 300) (some 300) true true,
         Step.encode (sharpFormat (extensionOf (filenameOf key))) 80]
        [Step.resize (some 320) none true true,
         Step.encode (sharpFormat (extensionOf (filenameOf key))) 85]
        [Step.resize (some 640) none true true,
         Step.encode (sharpFormat (extensionOf (filenameOf key))) 85]
        [Step.resize (some 1024) none true true,
         Step.encode (sharpFormat (extensionOf (filenameOf key))) 85]) =
      ((mainReqs env obj (filenameOf key) (extensionOf (filenameOf key))
        (optPipe obj (extensionOf (filenameOf key)))
        [Step.resize (some 300) (some 300) true true,
         Step.encode (sharpFormat (extensionOf (filenameOf key))) 80]
        [Step.resize (some 320) none true true,
         Step.encode (sharpFormat (extensionOf (filenameOf key))) 85]
        [Step.resize (some 640) none true true,
         Step.encode (sharpFormat (extensionOf (filenameOf key))) 85]
        [Step.resize (some 1024) none true true,
         Step.encode (sharpFormat (extensionOf (filenameOf key))) 85]).map
        (reqOp bucket), none) :=
    putSeq_ok env bucket _ (fun p _ => hput bucket p.key)
  have hput2 : putSeq env bucket
      [⟨str "webp/" ++ webpFilename (filenameOf key),
        [Step.encode (str "webp") 85], str "image/webp", []⟩] =
      ([reqOp bucket ⟨str "webp/" ++ webpFilename (filenameOf key),
        [Step.encode (str "webp") 85], str "image/webp", []⟩], none) :=
    putSeq_ok env bucket _ (fun p _ => hput bucket p.key)
  simp only [processRecord, hdec, hpre, hget, hsup, hct, if_true, hopt,
    createThumbnail, createResizedImage, convertToWebP, hd,
    Bool.true_eq_false, if_false, hput1, hput2, successTrace]

theorem nPre_optimized (f : Str) :
    isPre (str "original/") (str "optimized/" ++ f) = false := rfl

theorem nPre_thumbnails (f : Str) :
    isPre (str "original/") (str "thumbnails/" ++ f) = false := rfl

theorem nPre_sizes (f : Str) :
    isPre (str "original/") (str "sizes/" ++ f) = false := rfl

theorem nPre_webp (f : Str) :
    isPre (str "original/") (str "webp/" ++ f) = false := rfl

theorem opOk_get (b k : Str) : opOk (Op.getObject b k) := Or.inl ⟨b, k, rfl⟩

theorem opOk_req (bucket : Str) (p : PutReq)
    (h : isPre (str "original/") p.key = false) : opOk (reqOp bucket p) :=
  Or.inr ⟨bucket, p.key, p.body, p.contentType, _, p.metadata, rfl, h⟩

theorem mainReqs_key_nPre (env : Env) (obj : S3Obj) (f ext : Str)
    (p1 p2 p3 p4 p5 : List Step) (p : PutReq)
    (hp : p ∈ mainReqs env obj f ext p1 p2 p3 p4 p5) :
    isPre (str "original/") p.key = false := by
  simp only [mainReqs, List.mem_cons, List.mem_singleton, List.not_mem_nil,
    or_false] at hp
  rcases hp with rfl | rfl | rfl | rfl | rfl
  · exact nPre_optimized _
  · exact nPre_thumbnails _
  · exact nPre_sizes _
  · exact nPre_sizes _
  · exact nPre_sizes _

/-- Every S3 call of one record iteration is the single fetch or a put
whose key carries one of the four variant prefixes, hence never the
source prefix. -/
theorem processRecord_ops_shape (env : Env) (r : S3Record) (op : Op)
    (hop : op ∈ (processRecord env r).1) : opOk op := by
  unfold processRecord at hop
  rcases hdk : decodeKey r.key with _ | key <;> simp only [hdk] at hop
  · simp at hop
  by_cases hpre : isPre (str "original/") key = true
  case neg => rw [if_neg hpre] at hop; simp at hop
  rw [if_pos hpre] at hop
  rcases hget : env.get r.bucket key with e | obj <;> simp only [hget] at hop
  · simp only [List.mem_singleton] at hop
    exact hop ▸ opOk_get _ _
  by_cases hsup :
      supportedImageFormats.contains (extensionOf (filenameOf key)) = true
  case neg =>
    rw [if_neg hsup] at hop
    simp only [List.mem_singleton] at hop
    exact hop ▸ opOk_get _ _
  rw [if_pos hsup] at hop
  by_cases hct : isPre (str "image/") obj.contentType = true
  case neg =>
    rw [if_neg hct] at hop
    simp only [List.mem_singleton] at hop
    exact hop ▸ opOk_get _ _
  rw [if_pos hct] at hop
  rcases hoi : optimizeImage obj (extensionOf (filenameOf key)) with e | optP <;>
    simp only [hoi] at hop
  · simp only [List.mem_singleton] at hop
    exact hop ▸ opOk_get _ _
  rcases hth : createThumbnail obj (extensionOf (filenameOf key)) with e | thP <;>
    simp only [hth] at hop
  · simp only [List.mem_singleton] at hop
    exact hop ▸ opOk_get _ _
  rcases h32 : createResizedImage obj (extensionOf (filenameOf key)) 320 with
      e | smP <;> simp only [h32] at hop
  · simp only [List.mem_singleton] at hop
    exact hop ▸ opOk_get _ _
  rcases h64 : createResizedImage obj (extensionOf (filenameOf key)) 640 with
      e | meP <;> simp only [h64] at hop
  · simp only [List.mem_singleton] at hop
    exact hop ▸ opOk_get _ _
  rcases h10 : createResizedImage obj (extensionOf (filenameOf key)) 1024 with
      e | laP <;> simp only [h10] at hop
  · simp only [List.mem_singleton] at hop
    exact hop ▸ opOk_get _ _
  rcases hps : putSeq env r.bucket
      (mainReqs env obj (filenameOf key) (extensionOf (filenameOf key))
        optP thP smP meP laP) with ⟨ops1, err1⟩
  rw [hps] at hop
  have hops1 : ∀ o ∈ ops1, opOk o := by
    intro o ho
    have : o ∈ (putSeq env r.bucket
        (mainReqs env obj (filenameOf key) (extensionOf (filenameOf key))
          optP thP smP meP laP)).1 := by rw [hps]; exact ho
    rcases putSeq_mem _ _ _ _ this with ⟨p, hp, rfl⟩
    exact opOk_req _ _ (mainReqs_key_nPre _ _ _ _ _ _ _ _ _ _ hp)
  cases err1 with
  | some e =>
    simp only [List.mem_cons] at hop
    rcases hop with rfl | hop
    · exact opOk_get _ _
    · exact hops1 _ hop
  | none =>
    rcases hw : convertToWebP obj with e | webpP <;> simp only [hw] at hop
    · simp only [List.mem_cons] at hop
      rcases hop with rfl | hop
      · exact opOk_get _ _
      · exact hops1 _ hop
    rcases hps2 : putSeq env r.bucket
        [⟨str "webp/" ++ webpFilename (filenameOf key), webpP,
          str "image/webp", []⟩] with ⟨ops2, err2⟩
    rw [hps2] at hop
    simp only [List.mem_cons, List.mem_append] at hop
    rcases hop with rfl | hop | hop
    · exact opOk_get _ _
    · exact hops1 _ hop
    · have : op ∈ (putSeq env r.bucket
          [⟨str "webp/" ++ webpFilename (filenameOf key), webpP,
            str "image/webp", []⟩]).1 := by rw [hps2]; exact hop
      rcases putSeq_mem _ _ _ _ this with ⟨p, hp, rfl⟩
      simp only [List.mem_singleton] at hp
      subst hp
      exact opOk_req _ _ (nPre_webp _)

/-- Every operation of a batch run belongs to some record's iteration. -/
theorem runItems_mem (env : Env) (rs : List S3Record) (op : Op)
    (hop : op ∈ (runItems env rs).1) :
    ∃ r ∈ rs, op ∈ (processRecord env r).1 := by
  induction rs with
  | nil => simp [runItems] at hop
  | cons r rest ih =>
    simp only [runItems] at hop
    rcases hpr : processRecord env r with ⟨ops, err⟩
    simp only [hpr] at hop
    cases err with
    | some e =>
      exact ⟨r, List.mem_cons_self r rest, by rw [hpr]; exact hop⟩
    | none =>
      rcases hri : runItems env rest with ⟨ops2, res⟩
      simp only [hri] at hop
      rcases List.mem_append.mp hop with h | h
      · exact ⟨r, List.mem_cons_self r rest, by rw [hpr]; exact h⟩
      · rcases ih (by rw [hri]; exact h) with ⟨r', hr', hmem⟩
        exact ⟨r', List.mem_cons_of_mem r hr', hmem⟩

/-- A failing record aborts the batch: the trace is the successful prefix
items' traces followed by the failing item's trace, the error is re-raised
unchanged, and the records after the failing one contribute nothing. -/
theorem runItems_failAt (env : Env) (rs1 : List S3Record) (r : S3Record)
    (rs2 : List S3Record) (ops : List Op) (err : Str)
    (h1 : ∀ r' ∈ rs1, (processRecord env r').2 = none)
    (h2 : processRecord env r = (ops, some err)) :
    runItems env (rs1 ++ r :: rs2) =
      ((rs1.map (fun x => (processRecord env x).1)).flatten ++ ops,
       Except.error err) := by
  induction rs1 with
  | nil => simp [runItems, h2]
  | cons a as ih =>
    have ha := h1 a (List.mem_cons_self a as)
    rcases hpa : processRecord env a with ⟨opsa, erra⟩
    rw [hpa] at ha
    simp only at ha
    subst ha
    simp only [List.cons_append, runItems, hpa, List.append_eq,
      ih (fun q hq => h1 q (List.mem_cons_of_mem a hq)),
      List.map_cons, List.flatten_cons, List.append_assoc]

theorem ne_of_ne_headD (x y : Str) (h : ¬ x.headD ' ' = y.headD ' ') :
    ¬ x = y := fun he => h (by rw [he])

theorem ne_of_heads (a b : Char) (x y : Str) (ha : x.headD ' ' = a)
    (hb : y.headD ' ' = b) (hab : ¬ a = b) : ¬ x = y :=
  fun he => hab (by rw [← ha, ← hb, he])

theorem sizesKey_small_medium_ne (name ext : Str) :
    ¬ (str "sizes/" ++ (name ++ str "-small" ++ '.' :: ext) =
       str "sizes/" ++ (name ++ str "-medium" ++ '.' :: ext)) := by
  intro h
  have h1 := List.append_cancel_left h
  rw [List.append_assoc, List.append_assoc] at h1
  have h2 := List.append_cancel_left h1
  have h3 := congrArg List.length h2
  have e1 : (str "-small" ++ '.' :: ext).length = 7 + ext.length := by
    simp [str, List.length_append]
    omega
  have e2 : (str "-medium" ++ '.' :: ext).length = 8 + ext.length := by
    simp [str, List.length_append]
    omega
  rw [e1, e2] at h3
  omega

theorem sizesKey_small_large_ne (name ext : Str) :
    ¬ (str "sizes/" ++ (name ++ str "-small" ++ '.' :: ext) =
       str "sizes/" ++ (name ++ str "-large" ++ '.' :: ext)) := by
  intro h
  have h1 := List.append_cancel_left h
  rw [List.append_assoc, List.append_assoc] at h1
  have h2 := List.append_cancel_left h1
  have h3 := congrArg (fun l => List.get? l 1) h2
  have e1 : List.get? (str "-small" ++ '.' :: ext) 1 = some 's' := rfl
  have e2 : List.get? (str "-large" ++ '.' :: ext) 1 = some 'l' := rfl
  simp only [e1, e2] at h3
  exact absurd h3 (by decide)

theorem sizesKey_medium_large_ne (name ext : Str) :
    ¬ (str "sizes/" ++ (name ++ str "-medium" ++ '.' :: ext) =
       str "sizes/" ++ (name ++ str "-large" ++ '.' :: ext)) := by
  intro h
  have h1 := List.append_cancel_left h
  rw [List.append_assoc, List.append_assoc] at h1
  have h2 := List.append_cancel_left h1
  have h3 := congrArg List.length h2
  have e1 : (str "-medium" ++ '.' :: ext).length = 8 + ext.length := by
    simp [str, List.length_append]
    omega
  have e2 : (str "-large" ++ '.' :: ext).length = 7 + ext.length := by
    simp [str, List.length_append]
    omega
  rw [e1, e2] at h3
  omega

/-- The success trace written out for a key of the shape
`original/<name>.<ext>`. -/
theorem successTrace_shape (env : Env) (bucket : Str) (obj : S3Obj)
    (name ext : Str) (hne : ext ≠ []) (hnd : '.' ∉ ext) :
    successTrace env bucket (str "original/" ++ (name ++ '.' :: ext)) obj =
      [Op.getObject bucket (str "original/" ++ (name ++ '.' :: ext)),
       Op.putObject bucket (str "optimized/" ++ (name ++ '.' :: ext))
         (optPipe obj (toLowerStr ext))
         (if obj.contentType = [] then
            str "image/" ++ sharpFormat (toLowerStr ext)
          else obj.contentType)
         (str "max-age=31536000")
         (optimizedMeta env obj (optPipe obj (toLowerStr ext))),
       Op.putObject bucket (str "thumbnails/" ++ (name ++ '.' :: ext))
         [Step.resize (some 300) (some 300) true true,
          Step.encode (sharpFormat (toLowerStr ext)) 80]
         (str "image/" ++ sharpFormat (toLowerStr ext))
         (str "max-age=31536000") [],
       Op.putObject bucket
         (str "sizes/" ++ ((name ++ str "-small") ++ '.' :: ext))
         [Step.resize (some 320) none true true,
          Step.encode (sharpFormat (toLowerStr ext)) 85]
         (str "image/" ++ sharpFormat (toLowerStr ext))
         (str "max-age=31536000") [],
       Op.putObject bucket
         (str "sizes/" ++ ((name ++ str "-medium") ++ '.' :: ext))
         [Step.resize (some 640) none true true,
          Step.encode (sharpFormat (toLowerStr ext)) 85]
         (str "image/" ++ sharpFormat (toLowerStr ext))
         (str "max-age=31536000") [],
       Op.putObject bucket
         (str "sizes/" ++ ((name ++ str "-large") ++ '.' :: ext))
         [Step.resize (some 1024) none true true,
          Step.encode (sharpFormat (toLowerStr ext)) 85]
         (str "image/" ++ sharpFormat (toLowerStr ext))
         (str "max-age=31536000") [],
       Op.putObject bucket (str "webp/" ++ (name ++ str ".webp"))
         [Step.encode (str "webp") 85] (str "image/webp")
         (str "max-age=31536000") []] := by
  have hf : filenameOf (str "original/" ++ (name ++ '.' :: ext)) =
      name ++ '.' :: ext := filenameOf_append _
  simp only [successTrace, hf, extensionOf_append name ext hnd,
    sizeFilename_append name ext _ hne hnd, webpFilename_append name ext hne hnd,
    mainReqs, reqOp, List.map_cons, List.map_nil, List.cons_append,
    List.nil_append, List.append_assoc]

/-- putCT skips fetch operations. -/
theorem putCT_cons_get (b k : Str) (ops : List Op) (key : Str) :
    putCT (Op.getObject b k :: ops) key = putCT ops key := rfl

theorem putCT_cons_ne (b k : Str) (body : List Step) (ct cc : Str)
    (md : List (Str × Str)) (ops : List Op) (key : Str) (h : ¬ k = key) :
    putCT (Op.putObject b k body ct cc md :: ops) key = putCT ops key := by
  simp [putCT, h]

theorem putCT_cons_eq (b k : Str) (body : List Step) (ct cc : Str)
    (md : List (Str × Str)) (ops : List Op) :
    putCT (Op.putObject b k body ct cc md :: ops) k = some ct := by
  simp [putCT]

/-- When the decoded key passes the prefix test, the first S3 call of the
iteration is the fetch of the decoded key. -/
theorem processRecord_head (env : Env) (r : S3Record) (key : Str)
    (hdec : decodeKey r.key = some key)
    (hpre : isPre (str "original/") key = true) :
    ∃ rest, (processRecord env r).1 = Op.getObject r.bucket key :: rest := by
  unfold processRecord
  simp only [hdec]
  rw [if_pos hpre]
  rcases hget : env.get r.bucket key with e | obj
  · exact ⟨[], rfl⟩
  simp only []
  by_cases hsup :
      supportedImageFormats.contains (extensionOf (filenameOf key)) = true
  case neg => rw [if_neg hsup]; exact ⟨[], rfl⟩
  rw [if_pos hsup]
  by_cases hct : isPre (str "image/") obj.contentType = true
  case neg => rw [if_neg hct]; exact ⟨[], rfl⟩
  rw [if_pos hct]
  rcases hoi : optimizeImage obj (extensionOf (filenameOf key)) with e | optP <;>
    simp only [hoi]
  · exact ⟨[], rfl⟩
  rcases hth : createThumbnail obj (extensionOf (filenameOf key)) with e | thP <;>
    simp only [hth]
  · exact ⟨[], rfl⟩
  rcases h32 : createResizedImage obj (extensionOf (filenameOf key)) 320 with
      e | smP <;> simp only [h32]
  · exact ⟨[], rfl⟩
  rcases h64 : createResizedImage obj (extensionOf (filenameOf key)) 640 with
      e | meP <;> simp only [h64]
  · exact ⟨[], rfl⟩
  rcases h10 : createResizedImage obj (extensionOf (filenameOf key)) 1024 with
      e | laP <;> simp only [h10]
  · exact ⟨[], rfl⟩
  rcases hps : putSeq env r.bucket
      (mainReqs env obj (filenameOf key) (extensionOf (filenameOf key))
        optP thP smP meP laP) with ⟨ops1, err1⟩
  cases err1 with
  | some e => exact ⟨ops1, rfl⟩
  | none =>
    rcases hw : convertToWebP obj with e | webpP <;> simp only [hw]
    · exact ⟨ops1, rfl⟩
    rcases hps2 : putSeq env r.bucket
        [⟨str "webp/" ++ webpFilename (filenameOf key), webpP,
          str "image/webp", []⟩] with ⟨ops2, err2⟩
    simp only [hps2]
    exact ⟨ops1 ++ ops2, rfl⟩

/-- Claim C1 as stated is false: the work item `original/anim.gif` passes
all three eligibility checks (prefix, supported extension, image content
type), yet the handler writes zero objects — the optimized transform
throws before any put — not six. -/
theorem c1_counterexample :
    isPre (str "original/") (str "original/anim.gif") = true ∧
    supportedImageFormats.contains
      (extensionOf (filenameOf (str "original/anim.gif"))) = true ∧
    isPre (str "image/") objGif.contentType = true ∧
    putKeys (processRecord envStd
      ⟨str "bkt", str "original/anim.gif"⟩).1 = [] ∧
    (processRecord envStd ⟨str "bkt", str "original/anim.gif"⟩).2 =
      some (str "Unsupported image format: gif") := by
  refine ⟨rfl, rfl, rfl, rfl, rfl⟩

/-- Claim C1 (amended): for every work item whose decoded key is
`original/<name>.<ext>` with a lower-cased extension in
{jpg, jpeg, png, webp} (the re-encodable subset of the supported set;
gif/bmp/tiff abort before any write), whose fetch succeeds with an
`image/`-prefixed content type and a decodable body, and whose writes are
not rejected, the handler writes exactly six objects, at
`optimized/<name>.<ext>`, `thumbnails/<name>.<ext>`,
`sizes/<name>-small.<ext>`, `sizes/<name>-medium.<ext>`,
`sizes/<name>-large.<ext>` and `webp/<name>.webp` (extension case
preserved), and to no other keys, and raises no error. -/
theorem c1_sixWrites (env : Env) (bucket rawk name ext : Str) (obj : S3Obj)
    (hdec : decodeKey rawk = some (str "original/" ++ (name ++ '.' :: ext)))
    (hne : ext ≠ []) (hnd : '.' ∉ ext)
    (hext : toLowerStr ext ∈ [str "jpg", str "jpeg", str "png", str "webp"])
    (hget : env.get bucket (str "original/" ++ (name ++ '.' :: ext)) =
      Except.ok obj)
    (hct : isPre (str "image/") obj.contentType = true)
    (hd : obj.decodable = true)
    (hput : ∀ b k, env.putErr b k = none) :
    putKeys (processRecord env ⟨bucket, rawk⟩).1 =
      [str "optimized/" ++ (name ++ '.' :: ext),
       str "thumbnails/" ++ (name ++ '.' :: ext),
       str "sizes/" ++ ((name ++ str "-small") ++ '.' :: ext),
       str "sizes/" ++ ((name ++ str "-medium") ++ '.' :: ext),
       str "sizes/" ++ ((name ++ str "-large") ++ '.' :: ext),
       str "webp/" ++ (name ++ str ".webp")] ∧
    (processRecord env ⟨bucket, rawk⟩).2 = none := by
  have hf : filenameOf (str "original/" ++ (name ++ '.' :: ext)) =
      name ++ '.' :: ext := filenameOf_append _
  have hex : extensionOf (filenameOf (str "original/" ++ (name ++ '.' :: ext))) =
      toLowerStr ext := by rw [hf, extensionOf_append name ext hnd]
  have hmaster := processRecord_success env bucket rawk
    (str "original/" ++ (name ++ '.' :: ext)) obj hdec
    (isPre_append _ _) hget (hex ▸ hext) hct hd hput
  rw [hmaster, successTrace_shape env bucket obj name ext hne hnd]
  constructor
  · simp [putKeys]
  · rfl

/-- Witness for `c1_sixWrites` at `original/photo.jpg` in `envStd`. -/
theorem c1_sixWrites_witness :
    putKeys (processRecord envStd ⟨str "bkt", str "original/photo.jpg"⟩).1 =
      [str "optimized/photo.jpg", str "thumbnails/photo.jpg",
       str "sizes/photo-small.jpg", str "sizes/photo-medium.jpg",
       str "sizes/photo-large.jpg", str "webp/photo.webp"] ∧
    (processRecord envStd ⟨str "bkt", str "original/photo.jpg"⟩).2 = none := by
  have h := c1_sixWrites envStd (str "bkt") (str "original/photo.jpg")
    (str "photo") (str "jpg") objJpg rfl (by decide) (by decide) (by decide)
    rfl rfl rfl (fun b k => rfl)
  exact ⟨by rw [h.1]; rfl, h.2⟩

/-- Claim C2: for every input event, every S3 call the handler issues is
either a fetch or a put whose key does not start with `original/` — the
source object is never overwritten, and the `Op` vocabulary contains no
delete because the source issues no `deleteObject` (or any other mutating
call besides `putObject`). -/
theorem c2_noDeleteNoOriginalWrite (env : Env) (e : Event) :
    ∀ op ∈ (handler env e).1,
      (∃ b k, op = Op.getObject b k) ∨
      (∃ b k body ct cc md, op = Op.putObject b k body ct cc md ∧
        isPre (str "original/") k = false) := by
  intro op hop
  unfold handler at hop
  rcases her : eventRecords e with _ | rs <;> simp only [her] at hop
  · split at hop <;> simp at hop
  · split at hop
    · simp at hop
    · rcases runItems_mem env rs op hop with ⟨r, _, hmem⟩
      exact processRecord_ops_shape env r op hmem

/-- Witness for `c2_noDeleteNoOriginalWrite` at a concrete put of the
photo.jpg invocation. -/
theorem c2_witness :
    (∃ b k, (Op.putObject (str "bkt") (str "optimized/photo.jpg")
        [Step.rotate, Step.resize (some 1200) (some 1200) true true,
         Step.encode (str "jpeg") 85]
        (str "image/jpeg") (str "max-age=31536000")
        (optimizedMeta envStd objJpg
          [Step.rotate, Step.resize (some 1200) (some 1200) true true,
           Step.encode (str "jpeg") 85])) = Op.getObject b k) ∨
    (∃ b k body ct cc md, (Op.putObject (str "bkt")
        (str "optimized/photo.jpg")
        [Step.rotate, Step.resize (some 1200) (some 1200) true true,
         Step.encode (str "jpeg") 85]
        (str "image/jpeg") (str "max-age=31536000")
        (optimizedMeta envStd objJpg
          [Step.rotate, Step.resize (some 1200) (some 1200) true true,
           Step.encode (str "jpeg") 85])) = Op.putObject b k body ct cc md ∧
      isPre (str "original/") k = false) :=
  c2_noDeleteNoOriginalWrite envStd
    (evDirect (str "bkt") (str "original/photo.jpg")) _ (by decide)

/-- Claim C3: eligibility is tested in the order prefix, extension,
content type, short-circuiting on the first failure; a failing item is
skipped with zero puts and no error — in particular a prefix failure
issues no S3 call at all, an extension failure is skipped whatever the
content type, and after a skip the loop continues with the remaining
records. -/
theorem c3_eligibilityOrder (env : Env) (r : S3Record) :
    (∀ key, decodeKey r.key = some key →
      isPre (str "original/") key = false →
      processRecord env r = ([], none)) ∧
    (∀ key obj, decodeKey r.key = some key →
      isPre (str "original/") key = true →
      env.get r.bucket key = Except.ok obj →
      supportedImageFormats.contains (extensionOf (filenameOf key)) = false →
      processRecord env r = ([Op.getObject r.bucket key], none)) ∧
    (∀ key obj, decodeKey r.key = some key →
      isPre (str "original/") key = true →
      env.get r.bucket key = Except.ok obj →
      supportedImageFormats.contains (extensionOf (filenameOf key)) = true →
      isPre (str "image/") obj.contentType = false →
      processRecord env r = ([Op.getObject r.bucket key], none)) ∧
    (∀ rs, (processRecord env r).2 = none →
      runItems env (r :: rs) =
        ((processRecord env r).1 ++ (runItems env rs).1,
         (runItems env rs).2)) := by
  refine ⟨?_, ?_, ?_, ?_⟩
  · intro key hdec hpre
    unfold processRecord
    simp only [hdec]
    rw [if_neg (by rw [hpre]; simp)]
  · intro key obj hdec hpre hget hsup
    unfold processRecord
    simp only [hdec, hget]
    rw [if_pos hpre]
    rw [if_neg (by rw [hsup]; simp)]
  · intro key obj hdec hpre hget hsup hct
    unfold processRecord
    simp only [hdec, hget]
    rw [if_pos hpre]
    rw [if_pos hsup, if_neg (by rw [hct]; simp)]
  · intro rs herr
    rcases hpr : processRecord env r with ⟨ops, err⟩
    rw [hpr] at herr
    simp only at herr
    subst herr
    rcases hri : runItems env rs with ⟨ops2, res⟩
    simp only [runItems, hpr, hri]

/-- Witness for `c3_eligibilityOrder`: a wrong-prefix key, a `.pdf` key,
a fake `.jpg` with text content type, and the loop continuing after a
skipped record. -/
theorem c3_witness :
    processRecord envStd ⟨str "bkt", str "thumbnails/x.jpg"⟩ = ([], none) ∧
    processRecord envStd ⟨str "bkt", str "original/doc.pdf"⟩ =
      ([Op.getObject (str "bkt") (str "original/doc.pdf")], none) ∧
    processRecord envStd ⟨str "bkt", str "original/fake.jpg"⟩ =
      ([Op.getObject (str "bkt") (str "original/fake.jpg")], none) ∧
    runItems envStd [⟨str "bkt", str "thumbnails/x.jpg"⟩] =
      ([], Except.ok ⟨200,
        RespBody.msg (str "Images processed successfully")⟩) := by
  refine ⟨?_, ?_, ?_, ?_⟩
  · exact (c3_eligibilityOrder envStd _).1 _ rfl (by decide)
  · exact (c3_eligibilityOrder envStd _).2.1 _ objPdf rfl (by decide) rfl
      (by decide)
  · exact (c3_eligibilityOrder envStd _).2.2.1 _ objFake rfl (by decide) rfl
      (by decide) (by decide)
  · have h := (c3_eligibilityOrder envStd
      ⟨str "bkt", str "thumbnails/x.jpg"⟩).2.2.2 [] (by rfl)
    rw [h]
    rfl

/-- Claim C4: event classification in fixed order — a well-formed `detail`
descriptor yields exactly the one synthetic record (taking priority);
otherwise a present non-empty `Records` array is processed as-is in order;
otherwise `test === true` returns a 200 probe response with zero storage
calls; any other event returns 400 listing the top-level keys. -/
theorem c4_eventClassification (env : Env) (e : Event) :
    (∀ b k, e.detail = some ⟨some b, some k⟩ →
      handler env e = runItems env [⟨b, k⟩]) ∧
    (∀ rs, detailRecord e = none → e.records = some rs → ¬ rs = [] →
      handler env e = runItems env rs) ∧
    (detailRecord e = none → (e.records = none ∨ e.records = some []) →
      e.test = some true →
      handler env e = ([], Except.ok ⟨200, RespBody.msgNote
        (str "Lambda function is working. Configure S3 trigger or EventBridge to process images.")
        (str "This function processes images when triggered by S3 events in the original/ folder.")⟩)) ∧
    (detailRecord e = none → (e.records = none ∨ e.records = some []) →
      ¬ e.test = some true →
      handler env e = ([], Except.ok ⟨400, RespBody.errReceived
        (str "Invalid event format. Expected S3 event or EventBridge event.")
        (Event.keys e)⟩)) := by
  refine ⟨?_, ?_, ?_, ?_⟩
  · intro b k hd
    have her : eventRecords e = some [⟨b, k⟩] := by
      unfold eventRecords detailRecord
      simp [hd]
    unfold handler
    simp only [her]
    rw [if_neg (by simp)]
  · intro rs hd hr hne
    have her : eventRecords e = some rs := by
      unfold eventRecords
      simp [hd, hr, hne]
    unfold handler
    simp only [her]
    rw [if_neg hne]
  · intro hd hr ht
    unfold handler eventRecords
    rcases hr with hr | hr <;> simp [hd, hr, ht]
  · intro hd hr ht
    unfold handler eventRecords
    rcases hr with hr | hr <;> simp [hd, hr, ht]

/-- Witness for `c4_eventClassification`: the four event shapes on
concrete events. -/
theorem c4_witness :
    handler envStd (evDirect (str "bkt") (str "original/photo.jpg")) =
      runItems envStd [⟨str "bkt", str "original/photo.jpg"⟩] ∧
    handler envStd (evRecords [⟨str "bkt", str "original/photo.jpg"⟩,
        ⟨str "bkt", str "thumbnails/x.jpg"⟩]) =
      runItems envStd [⟨str "bkt", str "original/photo.jpg"⟩,
        ⟨str "bkt", str "thumbnails/x.jpg"⟩] ∧
    handler envStd evTest = ([], Except.ok ⟨200, RespBody.msgNote
      (str "Lambda function is working. Configure S3 trigger or EventBridge to process images.")
      (str "This function processes images when triggered by S3 events in the original/ folder.")⟩) ∧
    handler envStd evFoo = ([], Except.ok ⟨400, RespBody.errReceived
      (str "Invalid event format. Expected S3 event or EventBridge event.")
      [str "foo"]⟩) := by
  refine ⟨?_, ?_, ?_, ?_⟩
  · exact (c4_eventClassification envStd _).1 _ _ rfl
  · exact (c4_eventClassification envStd _).2.1 _ rfl rfl (by decide)
  · exact (c4_eventClassification envStd _).2.2.1 rfl (Or.inl rfl) rfl
  · have h := (c4_eventClassification envStd evFoo).2.2.2 rfl (Or.inl rfl)
      (by decide)
    rw [h]
    rfl

/-- Claim C5: when one work item's processing raises (fetch, decode,
transform or write), the handler re-raises that very error — no success
response is returned — and the trace consists only of the successful
prefix items' calls plus the failing item's calls: no record after the
failing one is processed. -/
theorem c5_errorPropagation (env : Env) (e : Event) (rs1 : List S3Record)
    (r : S3Record) (rs2 : List S3Record) (ops : List Op) (err : Str)
    (he : eventRecords e = some (rs1 ++ r :: rs2))
    (h1 : ∀ r' ∈ rs1, (processRecord env r').2 = none)
    (h2 : processRecord env r = (ops, some err)) :
    handler env e =
      ((rs1.map (fun x => (processRecord env x).1)).flatten ++ ops,
       Except.error err) := by
  unfold handler
  simp only [he]
  rw [if_neg (by simp)]
  exact runItems_failAt env rs1 r rs2 ops err h1 h2

/-- Witness for `c5_errorPropagation`: a failing fetch on the first record
aborts the invocation; the second record contributes nothing. -/
theorem c5_witness :
    handler envStd (evRecords [⟨str "bkt", str "original/missing.jpg"⟩,
        ⟨str "bkt", str "original/photo.jpg"⟩]) =
      ([Op.getObject (str "bkt") (str "original/missing.jpg")],
       Except.error (str "NoSuchKey")) := by
  have h := c5_errorPropagation envStd
    (evRecords [⟨str "bkt", str "original/missing.jpg"⟩,
      ⟨str "bkt", str "original/photo.jpg"⟩])
    [] ⟨str "bkt", str "original/missing.jpg"⟩
    [⟨str "bkt", str "original/photo.jpg"⟩]
    [Op.getObject (str "bkt") (str "original/missing.jpg")]
    (str "NoSuchKey") rfl (by simp) rfl
  rw [h]
  rfl

/-- Claim C6 as stated is false: for the eligible item
`original/photo.jpg` the thumbnail variant actually written by the
handler has the pipeline resize-then-encode with no EXIF rotation step at
all. -/
theorem c6_counterexample :
    putBody (processRecord envStd
        ⟨str "bkt", str "original/photo.jpg"⟩).1
      (str "thumbnails/photo.jpg") =
      some [Step.resize (some 300) (some 300) true true,
            Step.encode (str "jpeg") 80] ∧
    rotateOnceBeforeResize
      [Step.resize (some 300) (some 300) true true,
       Step.encode (str "jpeg") 80] = false := ⟨rfl, rfl⟩

/-- Claim C6 (amended): EXIF rotation is applied exactly once, before any
resize, in the optimized variant only; the thumbnail, the three sized
variants and the webp variant are produced without any rotation step. -/
theorem c6_rotation (obj : S3Obj) (extL : Str)
    (hd : obj.decodable = true)
    (hext : extL ∈ [str "jpg", str "jpeg", str "png", str "webp"]) :
    (optimizeImage obj extL = Except.ok (optPipe obj extL) ∧
      rotateOnceBeforeResize (optPipe obj extL) = true) ∧
    (∀ p, createThumbnail obj extL = Except.ok p →
      p.countP (fun s => isRotate s) = 0) ∧
    (∀ w p, createResizedImage obj extL w = Except.ok p →
      p.countP (fun s => isRotate s) = 0) ∧
    (∀ p, convertToWebP obj = Except.ok p →
      p.countP (fun s => isRotate s) = 0) := by
  refine ⟨⟨optimizeImage_ok obj extL hd hext, ?_⟩, ?_, ?_, ?_⟩
  · unfold optPipe rotateOnceBeforeResize
    split <;> simp [isRotate, isResize, List.countP_cons]
  · intro p hp
    rw [createThumbnail, if_neg (by rw [hd]; simp)] at hp
    cases hp
    simp [List.countP_cons, isRotate]
  · intro w p hp
    rw [createResizedImage, if_neg (by rw [hd]; simp)] at hp
    cases hp
    simp [List.countP_cons, isRotate]
  · intro p hp
    rw [convertToWebP, if_neg (by rw [hd]; simp)] at hp
    cases hp
    simp [List.countP_cons, isRotate]

/-- Witness for `c6_rotation` at the 2000x1500 JPEG source. -/
theorem c6_witness :
    (optimizeImage objJpg (str "jpg") =
        Except.ok (optPipe objJpg (str "jpg")) ∧
      rotateOnceBeforeResize (optPipe objJpg (str "jpg")) = true) ∧
    (∀ p, createThumbnail objJpg (str "jpg") = Except.ok p →
      p.countP (fun s => isRotate s) = 0) ∧
    (∀ w p, createResizedImage objJpg (str "jpg") w = Except.ok p →
      p.countP (fun s => isRotate s) = 0) ∧
    (∀ p, convertToWebP objJpg = Except.ok p →
      p.countP (fun s => isRotate s) = 0) :=
  c6_rotation objJpg (str "jpg") rfl (by decide)

/-- Claim C7 as stated is false: `original/pic.png` (declared content type
`image/jpeg`, target format png) is stored under `optimized/` with the
source's declared `image/jpeg`, not the target-format-derived
`image/png`. -/
theorem c7_counterexample :
    putCT (processRecord envStd ⟨str "bkt", str "original/pic.png"⟩).1
      (str "optimized/pic.png") = some (str "image/jpeg") ∧
    ¬ (str "image/jpeg") = (str "image/png") := ⟨rfl, by decide⟩

/-- Claim C7 (amended): only the non-optimized variants take their content
type from the target format alone; the optimized variant is stored with
the source object's declared content type (the target-format fallback
applies only when that is empty, which eligibility excludes). -/
theorem c7_contentType (env : Env) (bucket rawk name ext : Str)
    (obj : S3Obj)
    (hdec : decodeKey rawk = some (str "original/" ++ (name ++ '.' :: ext)))
    (hne : ext ≠ []) (hnd : '.' ∉ ext)
    (hext : toLowerStr ext ∈ [str "jpg", str "jpeg", str "png", str "webp"])
    (hget : env.get bucket (str "original/" ++ (name ++ '.' :: ext)) =
      Except.ok obj)
    (hct : isPre (str "image/") obj.contentType = true)
    (hd : obj.decodable = true)
    (hput : ∀ b k, env.putErr b k = none) :
    putCT (processRecord env ⟨bucket, rawk⟩).1
      (str "optimized/" ++ (name ++ '.' :: ext)) = some obj.contentType := by
  have hf : filenameOf (str "original/" ++ (name ++ '.' :: ext)) =
      name ++ '.' :: ext := filenameOf_append _
  have hex : extensionOf (filenameOf (str "original/" ++ (name ++ '.' :: ext))) =
      toLowerStr ext := by rw [hf, extensionOf_append name ext hnd]
  have hnil : ¬ obj.contentType = [] := by
    intro h0
    rw [h0] at hct
    exact absurd hct (by decide)
  have hmaster := processRecord_success env bucket rawk
    (str "original/" ++ (name ++ '.' :: ext)) obj hdec
    (isPre_append _ _) hget (hex ▸ hext) hct hd hput
  rw [hmaster, successTrace_shape env bucket obj name ext hne hnd,
    putCT_cons_get, putCT_cons_eq, if_neg hnil]

/-- Witness for `c7_contentType` at `original/photo.jpg`. -/
theorem c7_contentType_witness :
    putCT (processRecord envStd ⟨str "bkt", str "original/photo.jpg"⟩).1
      (str "optimized/photo.jpg") = some (str "image/jpeg") := by
  have h := c7_contentType envStd (str "bkt") (str "original/photo.jpg")
    (str "photo") (str "jpg") objJpg rfl (by decide) (by decide) (by decide)
    rfl rfl rfl (fun b k => rfl)
  exact h

/-- Claim C8: a work item with a decoded `original/` key whose lower-cased
extension is gif, bmp or tiff and whose fetched content type starts with
`image/` passes eligibility, but the optimized transform throws
`Unsupported image format: <ext>`; the error propagates, the invocation
fails, and the item's trace holds the fetch only — zero writes. -/
theorem c8_unsupportedTransform (env : Env) (bucket rawk key : Str)
    (obj : S3Obj)
    (hdec : decodeKey rawk = some key)
    (hpre : isPre (str "original/") key = true)
    (hget : env.get bucket key = Except.ok obj)
    (hext : extensionOf (filenameOf key) ∈
      [str "gif", str "bmp", str "tiff"])
    (hct : isPre (str "image/") obj.contentType = true)
    (hd : obj.decodable = true) :
    processRecord env ⟨bucket, rawk⟩ =
      ([Op.getObject bucket key],
       some (str "Unsupported image format: " ++
         extensionOf (filenameOf key))) ∧
    ∀ rs, (runItems env (⟨bucket, rawk⟩ :: rs)).2 =
      Except.error (str "Unsupported image format: " ++
        extensionOf (filenameOf key)) := by
  have hsup : supportedImageFormats.contains (extensionOf (filenameOf key)) =
      true := by
    simp only [List.mem_cons, List.mem_singleton, List.not_mem_nil,
      or_false] at hext
    rcases hext with h | h | h <;> rw [h] <;> rfl
  have hopt : optimizeImage obj (extensionOf (filenameOf key)) =
      Except.error (str "Unsupported image format: " ++
        extensionOf (filenameOf key)) := by
    simp only [List.mem_cons, List.mem_singleton, List.not_mem_nil,
      or_false] at hext
    rcases hext with h | h | h <;>
      · rw [h]
        rw [optimizeImage, if_neg (by rw [hd]; simp)]
        rfl
  have h1 : processRecord env ⟨bucket, rawk⟩ =
      ([Op.getObject bucket key],
       some (str "Unsupported image format: " ++
         extensionOf (filenameOf key))) := by
    unfold processRecord
    simp only [hdec, hget]
    rw [if_pos hpre]
    rw [if_pos hsup, if_pos hct]
    simp only [hopt]
  exact ⟨h1, fun rs => by simp only [runItems, h1]⟩

/-- Witness for `c8_unsupportedTransform` at `original/anim.gif`. -/
theorem c8_witness :
    processRecord envStd ⟨str "bkt", str "original/anim.gif"⟩ =
      ([Op.getObject (str "bkt") (str "original/anim.gif")],
       some (str "Unsupported image format: gif")) ∧
    (runItems envStd [⟨str "bkt", str "original/anim.gif"⟩]).2 =
      Except.error (str "Unsupported image format: gif") := by
  have h := c8_unsupportedTransform envStd (str "bkt")
    (str "original/anim.gif") (str "original/anim.gif") objGif rfl
    (by decide) rfl (by decide) (by decide) rfl
  exact ⟨by rw [h.1]; rfl, by rw [h.2 []]; rfl⟩

/-- Claim C9: every non-optimized variant of a processed item is written
with content type `image/jpeg` when the lower-cased source extension is
jpg or jpeg, else `image/<extension>`, and the webp variant always with
`image/webp` (for gif/bmp/tiff nothing is written at all, so the claim
holds vacuously there). -/
theorem c9_variantContentType (env : Env) (bucket rawk name ext : Str)
    (obj : S3Obj)
    (hdec : decodeKey rawk = some (str "original/" ++ (name ++ '.' :: ext)))
    (hne : ext ≠ []) (hnd : '.' ∉ ext)
    (hext : toLowerStr ext ∈ [str "jpg", str "jpeg", str "png", str "webp"])
    (hget : env.get bucket (str "original/" ++ (name ++ '.' :: ext)) =
      Except.ok obj)
    (hct : isPre (str "image/") obj.contentType = true)
    (hd : obj.decodable = true)
    (hput : ∀ b k, env.putErr b k = none) :
    putCT (processRecord env ⟨bucket, rawk⟩).1
        (str "thumbnails/" ++ (name ++ '.' :: ext)) =
      some (if toLowerStr ext = str "jpg" ∨ toLowerStr ext = str "jpeg" then
        str "image/jpeg" else str "image/" ++ toLowerStr ext) ∧
    putCT (processRecord env ⟨bucket, rawk⟩).1
        (str "sizes/" ++ ((name ++ str "-small") ++ '.' :: ext)) =
      some (if toLowerStr ext = str "jpg" ∨ toLowerStr ext = str "jpeg" then
        str "image/jpeg" else str "image/" ++ toLowerStr ext) ∧
    putCT (processRecord env ⟨bucket, rawk⟩).1
        (str "sizes/" ++ ((name ++ str "-medium") ++ '.' :: ext)) =
      some (if toLowerStr ext = str "jpg" ∨ toLowerStr ext = str "jpeg" then
        str "image/jpeg" else str "image/" ++ toLowerStr ext) ∧
    putCT (processRecord env ⟨bucket, rawk⟩).1
        (str "sizes/" ++ ((name ++ str "-large") ++ '.' :: ext)) =
      some (if toLowerStr ext = str "jpg" ∨ toLowerStr ext = str "jpeg" then
        str "image/jpeg" else str "image/" ++ toLowerStr ext) ∧
    putCT (processRecord env ⟨bucket, rawk⟩).1
        (str "webp/" ++ (name ++ str ".webp")) =
      some (str "image/webp") := by
  have hf : filenameOf (str "original/" ++ (name ++ '.' :: ext)) =
      name ++ '.' :: ext := filenameOf_append _
  have hex : extensionOf (filenameOf (str "original/" ++ (name ++ '.' :: ext))) =
      toLowerStr ext := by rw [hf, extensionOf_append name ext hnd]
  have hmaster := processRecord_success env bucket rawk
    (str "original/" ++ (name ++ '.' :: ext)) obj hdec
    (isPre_append _ _) hget (hex ▸ hext) hct hd hput
  have hctv : str "image/" ++ sharpFormat (toLowerStr ext) =
      (if toLowerStr ext = str "jpg" ∨ toLowerStr ext = str "jpeg" then
        str "image/jpeg" else str "image/" ++ toLowerStr ext) := by
    simp only [List.mem_cons, List.mem_singleton, List.not_mem_nil,
      or_false] at hext
    rcases hext with h | h | h | h <;> rw [h] <;> rfl
  rw [hmaster, successTrace_shape env bucket obj name ext hne hnd]
  have n_ot : ¬ (str "optimized/" ++ (name ++ '.' :: ext)) =
      (str "thumbnails/" ++ (name ++ '.' :: ext)) :=
    ne_of_heads 'o' 't' _ _ rfl rfl (by decide)
  have n_os : ¬ (str "optimized/" ++ (name ++ '.' :: ext)) =
      (str "sizes/" ++ ((name ++ str "-small") ++ '.' :: ext)) :=
    ne_of_heads 'o' 's' _ _ rfl rfl (by decide)
  have n_ts : ¬ (str "thumbnails/" ++ (name ++ '.' :: ext)) =
      (str "sizes/" ++ ((name ++ str "-small") ++ '.' :: ext)) :=
    ne_of_heads 't' 's' _ _ rfl rfl (by decide)
  have n_om : ¬ (str "optimized/" ++ (name ++ '.' :: ext)) =
      (str "sizes/" ++ ((name ++ str "-medium") ++ '.' :: ext)) :=
    ne_of_heads 'o' 's' _ _ rfl rfl (by decide)
  have n_tm : ¬ (str "thumbnails/" ++ (name ++ '.' :: ext)) =
      (str "sizes/" ++ ((name ++ str "-medium") ++ '.' :: ext)) :=
    ne_of_heads 't' 's' _ _ rfl rfl (by decide)
  have n_ol : ¬ (str "optimized/" ++ (name ++ '.' :: ext)) =
      (str "sizes/" ++ ((name ++ str "-large") ++ '.' :: ext)) :=
    ne_of_heads 'o' 's' _ _ rfl rfl (by decide)
  have n_tl : ¬ (str "thumbnails/" ++ (name ++ '.' :: ext)) =
      (str "sizes/" ++ ((name ++ str "-large") ++ '.' :: ext)) :=
    ne_of_heads 't' 's' _ _ rfl rfl (by decide)
  have n_ow : ¬ (str "optimized/" ++ (name ++ '.' :: ext)) =
      (str "webp/" ++ (name ++ str ".webp")) :=
    ne_of_heads 'o' 'w' _ _ rfl rfl (by decide)
  have n_tw : ¬ (str "thumbnails/" ++ (name ++ '.' :: ext)) =
      (str "webp/" ++ (name ++ str ".webp")) :=
    ne_of_heads 't' 'w' _ _ rfl rfl (by decide)
  have n_sw : ¬ (str "sizes/" ++ ((name ++ str "-small") ++ '.' :: ext)) =
      (str "webp/" ++ (name ++ str ".webp")) :=
    ne_of_heads 's' 'w' _ _ rfl rfl (by decide)
  have n_mw : ¬ (str "sizes/" ++ ((name ++ str "-medium") ++ '.' :: ext)) =
      (str "webp/" ++ (name ++ str ".webp")) :=
    ne_of_heads 's' 'w' _ _ rfl rfl (by decide)
  have n_lw : ¬ (str "sizes/" ++ ((name ++ str "-large") ++ '.' :: ext)) =
      (str "webp/" ++ (name ++ str ".webp")) :=
    ne_of_heads 's' 'w' _ _ rfl rfl (by decide)
  refine ⟨?_, ?_, ?_, ?_, ?_⟩
  · rw [putCT_cons_get, putCT_cons_ne _ _ _ _ _ _ _ _ n_ot,
      putCT_cons_eq, hctv]
  · rw [putCT_cons_get, putCT_cons_ne _ _ _ _ _ _ _ _ n_os,
      putCT_cons_ne _ _ _ _ _ _ _ _ n_ts, putCT_cons_eq, hctv]
  · rw [putCT_cons_get, putCT_cons_ne _ _ _ _ _ _ _ _ n_om,
      putCT_cons_ne _ _ _ _ _ _ _ _ n_tm,
      putCT_cons_ne _ _ _ _ _ _ _ _ (sizesKey_small_medium_ne name ext),
      putCT_cons_eq, hctv]
  · rw [putCT_cons_get, putCT_cons_ne _ _ _ _ _ _ _ _ n_ol,
      putCT_cons_ne _ _ _ _ _ _ _ _ n_tl,
      putCT_cons_ne _ _ _ _ _ _ _ _ (sizesKey_small_large_ne name ext),
      putCT_cons_ne _ _ _ _ _ _ _ _ (sizesKey_medium_large_ne name ext),
      putCT_cons_eq, hctv]
  · rw [putCT_cons_get, putCT_cons_ne _ _ _ _ _ _ _ _ n_ow,
      putCT_cons_ne _ _ _ _ _ _ _ _ n_tw,
      putCT_cons_ne _ _ _ _ _ _ _ _ n_sw,
      putCT_cons_ne _ _ _ _ _ _ _ _ n_mw,
      putCT_cons_ne _ _ _ _ _ _ _ _ n_lw,
      putCT_cons_eq]

/-- Witness for `c9_variantContentType` at `original/photo.jpg`. -/
theorem c9_witness :
    putCT (processRecord envStd ⟨str "bkt", str "original/photo.jpg"⟩).1
      (str "thumbnails/photo.jpg") = some (str "image/jpeg") ∧
    putCT (processRecord envStd ⟨str "bkt", str "original/photo.jpg"⟩).1
      (str "sizes/photo-small.jpg") = some (str "image/jpeg") ∧
    putCT (processRecord envStd ⟨str "bkt", str "original/photo.jpg"⟩).1
      (str "sizes/photo-medium.jpg") = some (str "image/jpeg") ∧
    putCT (processRecord envStd ⟨str "bkt", str "original/photo.jpg"⟩).1
      (str "sizes/photo-large.jpg") = some (str "image/jpeg") ∧
    putCT (processRecord envStd ⟨str "bkt", str "original/photo.jpg"⟩).1
      (str "webp/photo.webp") = some (str "image/webp") := by
  have h := c9_variantContentType envStd (str "bkt")
    (str "original/photo.jpg") (str "photo") (str "jpg") objJpg rfl
    (by decide) (by decide) (by decide) rfl rfl rfl (fun b k => rfl)
  exact ⟨h.1, h.2.1, h.2.2.1, h.2.2.2.1, h.2.2.2.2⟩

/-- Claim C10: the object key is rewritten — each `+` to a space, then
percent-decoded — before anything else: the whole iteration depends on the
raw key only through `decodeKey`, the prefix test is on the decoded key,
and the fetch (hence the filename and every destination key, per
`c1_sixWrites`) uses the decoded key. -/
theorem c10_keyDecoding (env : Env) (b : Str) :
    (∀ k1 k2, decodeKey k1 = decodeKey k2 →
      processRecord env ⟨b, k1⟩ = processRecord env ⟨b, k2⟩) ∧
    (∀ k key, decodeKey k = some key →
      isPre (str "original/") key = true →
      ∃ rest, (processRecord env ⟨b, k⟩).1 =
        Op.getObject b key :: rest) ∧
    (∀ k key, decodeKey k = some key →
      isPre (str "original/") key = false →
      processRecord env ⟨b, k⟩ = ([], none)) := by
  refine ⟨?_, ?_, ?_⟩
  · intro k1 k2 h
    unfold processRecord
    dsimp only
    rw [h]
  · intro k key hdec hpre
    exact processRecord_head env ⟨b, k⟩ key hdec hpre
  · intro k key hdec hpre
    unfold processRecord
    simp only [hdec]
    rw [if_neg (by rw [hpre]; simp)]

/-- Witness for `c10_keyDecoding`: a URL-encoded key behaves exactly like
its decoded form, and the fetch targets the decoded key. -/
theorem c10_witness :
    processRecord envStd
        ⟨str "bkt", str "original/caf%C3%A9+photo.jpg"⟩ =
      processRecord envStd ⟨str "bkt", str "original/café photo.jpg"⟩ ∧
    ∃ rest, (processRecord envStd
        ⟨str "bkt", str "original/photo.jpg"⟩).1 =
      Op.getObject (str "bkt") (str "original/photo.jpg") :: rest := by
  constructor
  · exact (c10_keyDecoding envStd (str "bkt")).1 _ _ (by rfl)
  · exact (c10_keyDecoding envStd (str "bkt")).2.1 _ _ rfl (by decide)
